import Mathlib

/-!
Verification of the SecureNotes extension (vscode-secure-notes).

This development shallowly embeds the hybrid encryption engine
(`src/encryption.ts`, class `NotepadEncryption`), the plaintext lifecycle
manager (`src/tempFileManager.ts`, class `TempFileManager`) and the
platform-aware storage component (`src/secureTempStorage.ts`, class
`SecureTempStorage`) in Lean, and proves or refutes the specification
claims about them.

Host cryptographic primitives (Node's `crypto` module) are modelled
symbolically but executably: AES-256-GCM is an invertible keyed byte
transformation with a recomputable tag, RSA-OAEP key wrapping is an
injective pairing of a key-pair identifier with the wrapped bytes, and
HMAC-SHA256 is a deterministic 32-byte digest function.  Only the
properties the source relies on (invertibility with the matching key,
determinism of digests, tag checks on decryption) are built in; the
control flow around them is translated line by line from the TypeScript
source.
-/

/-- A byte, as stored in a Node `Buffer`. -/
abbrev Byte := Fin 256

/-- Byte buffers (Node `Buffer`) are lists of bytes. -/
abbrev Bytes := List Byte

namespace CryptoModel

/-- Mixes a byte list into a single byte seed (helper for the symbolic
digest and keystream functions; any computable function would do). -/
def mixBytes (l : Bytes) : Byte :=
  l.foldl (fun acc b => acc * 31 + b) 7

/-- Model of the AES-256-GCM keystream derived from key and IV: a single
byte added to every plaintext byte.  Invertible by subtraction, which is
all the source relies on. -/
def keyStream (key iv : Bytes) : Byte :=
  mixBytes (key ++ iv) + 13

/-- Model of the GCM authentication tag over (key, iv, ciphertext):
a deterministic 16-byte digest. -/
def gcmTag (key iv ct : Bytes) : Bytes :=
  List.replicate 16 (mixBytes (key ++ iv ++ ct) + 101)

/-- Model of `crypto.createCipheriv('aes-256-gcm', key, iv)` applied to a
plaintext: returns the ciphertext and the cipher's own auth tag. -/
def aesGcmEncrypt (key iv plaintext : Bytes) : Bytes × Bytes :=
  let ct := plaintext.map (fun b => b + keyStream key iv)
  (ct, gcmTag key iv ct)

/-- Model of `crypto.createDecipheriv('aes-256-gcm', ...)` with
`setAuthTag`: fails iff the recomputed tag differs from the provided tag,
otherwise inverts the keystream. -/
def aesGcmDecrypt (key iv ct tag : Bytes) : Option Bytes :=
  if gcmTag key iv ct = tag then
    some (ct.map (fun b => b - keyStream key iv))
  else
    none

/-- Model of HMAC-SHA256: a deterministic 32-byte keyed digest of the
message. -/
def hmacSha256 (key msg : Bytes) : Bytes :=
  List.replicate 32 (mixBytes (key ++ msg) + 53)

theorem hmacSha256_length (key msg : Bytes) :
    (hmacSha256 key msg).length = 32 := by
  rw [hmacSha256, List.length_replicate]

/-- Model of `crypto.timingSafeEqual`: Node throws a `RangeError` when the
two buffers have different lengths (modelled as `none`), otherwise answers
whether they are equal. -/
def timingSafeEqual (a b : Bytes) : Option Bool :=
  if a.length = b.length then some (a = b) else none

/-- An RSA-OAEP-wrapped symmetric key (`crypto.publicEncrypt` output).
OAEP wrapping is modelled symbolically: the opaque blob records which key
pair wrapped it and the wrapped bytes. -/
structure WrappedKey where
  pubId : Nat
  key : Bytes
deriving DecidableEq, Inhabited

/-- Model of `crypto.publicEncrypt` with OAEP padding under the public key
of pair `pubId`. -/
def publicEncrypt (pubId : Nat) (key : Bytes) : WrappedKey :=
  ⟨pubId, key⟩

/-- Model of `crypto.privateDecrypt` with OAEP padding under the private
key of pair `privId`: unwrapping succeeds only with the matching pair. -/
def privateDecrypt (privId : Nat) (w : WrappedKey) : Option Bytes :=
  if w.pubId = privId then some w.key else none

theorem aesGcm_roundTrip (key iv p : Bytes) :
    aesGcmDecrypt key iv (aesGcmEncrypt key iv p).1 (aesGcmEncrypt key iv p).2 = some p := by
  simp [aesGcmEncrypt, aesGcmDecrypt]
  induction p with
  | nil => rfl
  | cons b t ih => simp [List.map_cons, ih]

end CryptoModel

open CryptoModel

/-- `EncryptedFile` (`src/types.ts`): the persisted envelope
`{version, encryptedKey, iv, authTag, content, hmac?}`.  The base64 string
fields are modelled as the byte buffers they decode to; `hmac` is optional
(absent in version-1 envelopes). -/
structure EncryptedFile where
  version : Nat
  encryptedKey : WrappedKey
  iv : Bytes
  authTag : Bytes
  content : Bytes
  hmac : Option Bytes
deriving DecidableEq, Inhabited

/-- The error classes of `src/errors.ts` that the encryption engine throws. -/
inductive EncError where
  | notConfigured
  | keyNotFound
  | invalidPassphrase
  | notUnlocked
  | encryptionFailed
  | decryptionFailed
  | integrityCheckFailed
deriving DecidableEq

/-- The mutable fields of class `NotepadEncryption`
(`src/encryption.ts` lines 57-61) that the claims concern: `publicKey`,
`privateKey`, `isUnlocked`.  Key material is modelled by the key-pair
identifier it belongs to.  (The session-timeout handle and last-activity
timestamp are timer bookkeeping with no effect on the claims.) -/
structure EngineState where
  publicKey : Option Nat
  privateKey : Option Nat
  isUnlocked : Bool
deriving DecidableEq

namespace NotepadEncryption

/-- `ENCRYPTION_VERSION` (`src/encryption.ts` line 26). -/
def ENCRYPTION_VERSION : Nat := 2

/-- `NotepadEncryption.encrypt` (`src/encryption.ts` lines 376-420).
The fresh random `aesKey` and `iv` drawn from `crypto.randomBytes` are
passed in explicitly.  Throws `EncryptionNotUnlockedError` when no public
key is loaded; otherwise encrypts with AES-256-GCM, wraps the AES key with
RSA-OAEP, and appends an HMAC-SHA256 of the ciphertext keyed by the same
AES key. -/
def encrypt (st : EngineState) (aesKey iv plaintext : Bytes) :
    Except EncError EncryptedFile :=
  match st.publicKey with
  | none => .error .notUnlocked
  | some pub =>
    let (encrypted, authTag) := aesGcmEncrypt aesKey iv plaintext
    let encryptedKey := publicEncrypt pub aesKey
    let hmacDigest := hmacSha256 aesKey encrypted
    .ok {
      version := ENCRYPTION_VERSION
      encryptedKey := encryptedKey
      iv := iv
      authTag := authTag
      content := encrypted
      hmac := some hmacDigest
    }

/-- `NotepadEncryption.decrypt` (`src/encryption.ts` lines 425-476).
Throws `EncryptionNotUnlockedError` when no private key is loaded.
Unwraps the AES key; if `encrypted.hmac` is truthy (present and not the
empty string) and `encrypted.version >= 2`, recomputes the HMAC and
compares with `crypto.timingSafeEqual`, throwing
`IntegrityCheckFailedError` on mismatch before the cipher step; then
decrypts with AES-256-GCM.  The surrounding catch rethrows
`IntegrityCheckFailedError` and wraps every other failure (OAEP failure,
`timingSafeEqual` length `RangeError`, GCM tag failure) in
`DecryptionFailedError`. -/
def decrypt (st : EngineState) (encrypted : EncryptedFile) :
    Except EncError Bytes :=
  match st.privateKey with
  | none => .error .notUnlocked
  | some priv =>
    match privateDecrypt priv encrypted.encryptedKey with
    | none => .error .decryptionFailed
    | some aesKey =>
      let encryptedContent := encrypted.content
      let hmacStep : Except EncError Unit :=
        match encrypted.hmac with
        | some providedHmac =>
          if providedHmac ≠ [] ∧ encrypted.version ≥ 2 then
            match timingSafeEqual (hmacSha256 aesKey encryptedContent) providedHmac with
            | none => .error .decryptionFailed
            | some true => .ok ()
            | some false => .error .integrityCheckFailed
          else .ok ()
        | none => .ok ()
      match hmacStep with
      | .error e => .error e
      | .ok () =>
        match aesGcmDecrypt aesKey encrypted.iv encryptedContent encrypted.authTag with
        | some plaintext => .ok plaintext
        | none => .error .decryptionFailed

/-- `NotepadEncryption.lock` (`src/encryption.ts` lines 295-302): clears
both keys from memory, marks the session locked, and cancels the timeout. -/
def lock (_st : EngineState) : EngineState :=
  { publicKey := none, privateKey := none, isUnlocked := false }

/-- `NotepadEncryption.getIsUnlocked` (`src/encryption.ts` lines 307-309). -/
def getIsUnlocked (st : EngineState) : Bool :=
  st.isUnlocked

end NotepadEncryption

/-- Contents of the private key file on disk, as `crypto.createPrivateKey`
sees them: the key pair it belongs to, and the passphrase it is encrypted
under (none when the PEM is unprotected). -/
structure PrivateKeyFile where
  pairId : Nat
  passphrase : Option Bytes
deriving DecidableEq

/-- The configuration and key-file environment the engine's key-loading
methods read: the configured paths (`getKeyPaths`), what is stored at
those paths (`none` when the file is missing), the private key file's
permission bits (`stats.mode & 0o777`), and whether the host is win32. -/
structure KeyEnv where
  publicKeyPathSet : Bool
  privateKeyPathSet : Bool
  publicKeyFile : Option Nat
  privateKeyFile : Option PrivateKeyFile
  privateKeyMode : Nat
  isWin32 : Bool
deriving DecidableEq

namespace NotepadEncryption

/-- `NotepadEncryption.loadPublicKey` (`src/encryption.ts` lines 170-183):
fails with `EncryptionNotConfiguredError` when the path is unset, with
`EncryptionKeyNotFoundError` when the file is missing, otherwise stores
the key. -/
def loadPublicKey (st : EngineState) (env : KeyEnv) :
    Except EncError EngineState :=
  if !env.publicKeyPathSet then .error .notConfigured
  else
    match env.publicKeyFile with
    | none => .error .keyNotFound
    | some pubId => .ok { st with publicKey := some pubId }

/-- `NotepadEncryption.loadPrivateKey` (`src/encryption.ts` lines 189-234):
fails with `EncryptionNotConfiguredError` when the path is unset or (on
non-win32 hosts) the file's permissions are not `0o600`, with
`EncryptionKeyNotFoundError` when the file is missing, and with
`InvalidPassphraseError` when `crypto.createPrivateKey` rejects the
passphrase; on success stores the key and marks the session unlocked. -/
def loadPrivateKey (st : EngineState) (env : KeyEnv)
    (passphrase : Option Bytes) : Except EncError EngineState :=
  if !env.privateKeyPathSet then .error .notConfigured
  else
    match env.privateKeyFile with
    | none => .error .keyNotFound
    | some file =>
      if env.privateKeyMode % 512 ≠ 0o600 ∧ !env.isWin32 then
        .error .notConfigured
      else
        match file.passphrase with
        | none =>
          .ok { st with privateKey := some file.pairId, isUnlocked := true }
        | some filePass =>
          if passphrase = some filePass then
            .ok { st with privateKey := some file.pairId, isUnlocked := true }
          else .error .invalidPassphrase

/-- `NotepadEncryption.unlock` (`src/encryption.ts` lines 243-290): loads
the public key, tries the private key without a passphrase, and on a
passphrase-shaped failure prompts once (`promptResult` is what the user
typed, `none` when they cancelled) and retries.  Returns whether the
session is now unlocked, together with the resulting engine state; any
failure is caught and reported as `false`. -/
def unlock (st : EngineState) (env : KeyEnv) (promptResult : Option Bytes) :
    Bool × EngineState :=
  match loadPublicKey st env with
  | .error _ => (false, st)
  | .ok st1 =>
    match loadPrivateKey st1 env none with
    | .ok st2 => (true, st2)
    | .error e =>
      if e = .invalidPassphrase then
        match promptResult with
        | none => (false, st1)
        | some pp =>
          match loadPrivateKey st1 env (some pp) with
          | .ok st2 => (true, st2)
          | .error _ => (false, st1)
      else (false, st1)

end NotepadEncryption

namespace CryptoModel

theorem map_add_sub_cancel (ks : Byte) (p : Bytes) :
    p.map ((fun b => b - ks) ∘ fun b => b + ks) = p := by
  induction p with
  | nil => rfl
  | cons b t ih => simp [List.map_cons, ih]

theorem hmacSha256_ne_nil (key msg : Bytes) : hmacSha256 key msg ≠ [] := by
  simp [hmacSha256]

theorem timingSafeEqual_self (a : Bytes) : timingSafeEqual a a = some true := by
  simp [timingSafeEqual]

end CryptoModel

/-- Helper: decrypting (with the matching private key loaded) an envelope
that `encrypt` produced under public key `n` recovers the plaintext. -/
theorem decrypt_of_encrypt_eq (stE stD : EngineState) (n : Nat)
    (aesKey iv p : Bytes) (env : EncryptedFile)
    (hpub : stE.publicKey = some n) (hpriv : stD.privateKey = some n)
    (henc : NotepadEncryption.encrypt stE aesKey iv p = .ok env) :
    NotepadEncryption.decrypt stD env = .ok p := by
  simp only [NotepadEncryption.encrypt, hpub] at henc
  rw [Except.ok.injEq] at henc
  subst henc
  simp only [NotepadEncryption.decrypt, hpriv, privateDecrypt, publicEncrypt,
    aesGcmEncrypt, timingSafeEqual_self, hmacSha256_ne_nil, ne_eq,
    not_false_eq_true, true_and, if_true, if_pos rfl,
    NotepadEncryption.ENCRYPTION_VERSION]
  norm_num [aesGcmDecrypt, map_add_sub_cancel]

/-- Helper: the same, for the envelope downgraded to version 1 with the
`hmac` field removed. -/
theorem decrypt_v1_of_encrypt_eq (stE stD : EngineState) (n : Nat)
    (aesKey iv p : Bytes) (env : EncryptedFile)
    (hpub : stE.publicKey = some n) (hpriv : stD.privateKey = some n)
    (henc : NotepadEncryption.encrypt stE aesKey iv p = .ok env) :
    NotepadEncryption.decrypt stD { env with version := 1, hmac := none } = .ok p := by
  simp only [NotepadEncryption.encrypt, hpub] at henc
  rw [Except.ok.injEq] at henc
  subst henc
  simp only [NotepadEncryption.decrypt, hpriv, privateDecrypt, publicEncrypt,
    aesGcmEncrypt, if_pos rfl]
  norm_num [aesGcmDecrypt, map_add_sub_cancel]

/-- Claim C2: for every byte buffer `p` (including the empty buffer and
arbitrary binary buffers), when the engine holds a matching loaded public
and private key, `decrypt (encrypt p)` returns a buffer equal to `p`.
The fresh random AES key and IV drawn inside `encrypt` are universally
quantified. -/
theorem roundTrip_decrypt_encrypt (st : EngineState) (n : Nat)
    (aesKey iv p : Bytes) (env : EncryptedFile)
    (hpub : st.publicKey = some n) (hpriv : st.privateKey = some n)
    (henc : NotepadEncryption.encrypt st aesKey iv p = .ok env) :
    NotepadEncryption.decrypt st env = .ok p :=
  decrypt_of_encrypt_eq st st n aesKey iv p env hpub hpriv henc

theorem roundTrip_decrypt_encrypt_witness :
    (⟨some 3, some 3, true⟩ : EngineState).publicKey = some 3 ∧
    (⟨some 3, some 3, true⟩ : EngineState).privateKey = some 3 ∧
    NotepadEncryption.decrypt ⟨some 3, some 3, true⟩
      ((NotepadEncryption.encrypt ⟨some 3, some 3, true⟩ [9, 8] [7] [1, 2, 255]).toOption.getD default)
      = .ok [1, 2, 255] :=
  ⟨rfl, rfl,
    roundTrip_decrypt_encrypt ⟨some 3, some 3, true⟩ 3 [9, 8] [7] [1, 2, 255] _ rfl rfl rfl⟩

/-- Claim C8: a version-1 envelope (no `hmac` field) whose remaining
fields come from a valid encryption under the loaded key pair still
decrypts to the original plaintext; absence of `hmac` never causes a
decryption failure. -/
theorem version1_envelope_decrypts (st : EngineState) (n : Nat)
    (aesKey iv p : Bytes) (env : EncryptedFile)
    (hpub : st.publicKey = some n) (hpriv : st.privateKey = some n)
    (henc : NotepadEncryption.encrypt st aesKey iv p = .ok env) :
    NotepadEncryption.decrypt st { env with version := 1, hmac := none } = .ok p :=
  decrypt_v1_of_encrypt_eq st st n aesKey iv p env hpub hpriv henc

theorem version1_envelope_decrypts_witness :
    NotepadEncryption.decrypt ⟨some 2, some 2, true⟩
      { (NotepadEncryption.encrypt ⟨some 2, some 2, true⟩ [4] [5] [6, 7]).toOption.getD default with
          version := 1, hmac := none }
      = .ok [6, 7] :=
  version1_envelope_decrypts ⟨some 2, some 2, true⟩ 2 [4] [5] [6, 7] _ rfl rfl rfl

/-- Claim C7: after `lock()` the key material is cleared (`publicKey` and
`privateKey` are `null`, `isUnlocked` is `false`, the only other session
state), `encrypt` and `decrypt` attempted while locked fail fast with
`NotUnlocked`, and a subsequent `unlock()` whose prompt supplies the
correct passphrase restores correct decryption of the same envelope. -/
theorem lock_clears_and_reunlock_restores (st : EngineState) (n : Nat)
    (aesKey iv p pp : Bytes) (env : EncryptedFile) (keyEnv : KeyEnv)
    (hpub : st.publicKey = some n)
    (henc : NotepadEncryption.encrypt st aesKey iv p = .ok env)
    (hkPub : keyEnv.publicKeyPathSet = true)
    (hkPubFile : keyEnv.publicKeyFile = some n)
    (hkPriv : keyEnv.privateKeyPathSet = true)
    (hkPrivFile : keyEnv.privateKeyFile = some ⟨n, some pp⟩)
    (hkMode : keyEnv.privateKeyMode % 512 = 0o600) :
    ((NotepadEncryption.lock st).publicKey = none ∧
      (NotepadEncryption.lock st).privateKey = none ∧
      (NotepadEncryption.lock st).isUnlocked = false) ∧
    NotepadEncryption.encrypt (NotepadEncryption.lock st) aesKey iv p
      = .error .notUnlocked ∧
    NotepadEncryption.decrypt (NotepadEncryption.lock st) env
      = .error .notUnlocked ∧
    (NotepadEncryption.unlock (NotepadEncryption.lock st) keyEnv (some pp)).1 = true ∧
    NotepadEncryption.decrypt
      (NotepadEncryption.unlock (NotepadEncryption.lock st) keyEnv (some pp)).2 env
      = .ok p := by
  have hUnlock :
      NotepadEncryption.unlock (NotepadEncryption.lock st) keyEnv (some pp)
        = (true, ⟨some n, some n, true⟩) := by
    simp [NotepadEncryption.unlock, NotepadEncryption.loadPublicKey,
      NotepadEncryption.loadPrivateKey, NotepadEncryption.lock,
      hkPub, hkPubFile, hkPriv, hkPrivFile, hkMode]
  refine ⟨⟨rfl, rfl, rfl⟩, rfl, rfl, by rw [hUnlock], ?_⟩
  rw [hUnlock]
  exact decrypt_of_encrypt_eq st ⟨some n, some n, true⟩ n aesKey iv p env hpub rfl henc

theorem lock_clears_and_reunlock_restores_witness :
    (NotepadEncryption.unlock (NotepadEncryption.lock ⟨some 4, some 4, true⟩)
        ⟨true, true, some 4, some ⟨4, some [1, 2]⟩, 0o600, false⟩ (some [1, 2])).1 = true ∧
    NotepadEncryption.decrypt
      (NotepadEncryption.unlock (NotepadEncryption.lock ⟨some 4, some 4, true⟩)
        ⟨true, true, some 4, some ⟨4, some [1, 2]⟩, 0o600, false⟩ (some [1, 2])).2
      ((NotepadEncryption.encrypt ⟨some 4, some 4, true⟩ [3] [2] [44]).toOption.getD default)
      = .ok [44] := by
  have h := lock_clears_and_reunlock_restores ⟨some 4, some 4, true⟩ 4 [3] [2] [44] [1, 2]
    ((NotepadEncryption.encrypt ⟨some 4, some 4, true⟩ [3] [2] [44]).toOption.getD default)
    ⟨true, true, some 4, some ⟨4, some [1, 2]⟩, 0o600, false⟩
    rfl rfl rfl rfl rfl rfl rfl
  exact ⟨h.2.2.2.1, h.2.2.2.2⟩

/-- A concrete version-1 envelope whose `hmac` field is present but
mismatching, and whose other fields form a valid encryption of `[10]`
under key pair 0 with AES key `[1]` and IV `[2]`. -/
def hmacEnvV1 : EncryptedFile :=
  { version := 1
    encryptedKey := ⟨0, [1]⟩
    iv := [2]
    authTag := gcmTag [1] [2] (([10] : Bytes).map (fun b => b + keyStream [1] [2]))
    content := ([10] : Bytes).map (fun b => b + keyStream [1] [2])
    hmac := some [0, 0, 0] }

/-- Claim C3 counterexample: an envelope with `version = 1` whose `hmac`
field IS present but mismatching.  The source guards the HMAC check with
`encrypted.hmac && encrypted.version >= 2` (`src/encryption.ts` line 444),
so the mismatch is never noticed: `decrypt` runs the cipher step and
returns the plaintext instead of failing with `IntegrityCheckFailed`. -/
theorem hmac_present_mismatch_not_checked_counterexample :
    (hmacEnvV1.hmac ≠ none) ∧
    (hmacEnvV1.hmac ≠ some (hmacSha256 [1] hmacEnvV1.content)) ∧
    NotepadEncryption.decrypt ⟨some 0, some 0, true⟩ hmacEnvV1 = .ok [10] :=
  ⟨by decide, by decide, by rfl⟩

/-- Claim C3 amended: for every envelope whose `hmac` field is present
(and non-empty) AND whose `version` is at least 2, `decrypt` recomputes
the keyed tag over the ciphertext with the unwrapped symmetric key and
compares it before any cipher step: an equal-length mismatch fails with
`IntegrityCheckFailed` without the cipher inputs (`iv`, `authTag`) ever
being consulted; a wrong-length `hmac` fails with the generic
`DecryptionFailed` (Node's `timingSafeEqual` length error, wrapped); a
cipher-tag failure after a correct HMAC is the generic
`DecryptionFailed`; and the two failure kinds are distinguishable. -/
theorem hmac_check_before_cipher_amended (st : EngineState) (priv : Nat)
    (e : EncryptedFile) (h : Bytes)
    (hpriv : st.privateKey = some priv)
    (hkey : e.encryptedKey.pubId = priv)
    (hhm : e.hmac = some h) (hne : h ≠ []) (hver : 2 ≤ e.version) :
    ((h.length = 32 → h ≠ hmacSha256 e.encryptedKey.key e.content →
      ∀ iv tag, NotepadEncryption.decrypt st { e with iv := iv, authTag := tag }
        = .error .integrityCheckFailed) ∧
    (h.length ≠ 32 →
      NotepadEncryption.decrypt st e = .error .decryptionFailed) ∧
    (h = hmacSha256 e.encryptedKey.key e.content →
      aesGcmDecrypt e.encryptedKey.key e.iv e.content e.authTag = none →
      NotepadEncryption.decrypt st e = .error .decryptionFailed)) ∧
    EncError.integrityCheckFailed ≠ EncError.decryptionFailed := by
  refine ⟨⟨?_, ?_, ?_⟩, by decide⟩
  · intro hlen hmis iv tag
    simp [NotepadEncryption.decrypt, hpriv, privateDecrypt, hkey, hhm, hne,
      hver, timingSafeEqual, hmacSha256_length, hlen, Ne.symm hmis]
  · intro hlen
    simp [NotepadEncryption.decrypt, hpriv, privateDecrypt, hkey, hhm, hne,
      hver, timingSafeEqual, hmacSha256_length, Ne.symm hlen]
  · intro hok hgcm
    simp [NotepadEncryption.decrypt, hpriv, privateDecrypt, hkey, hhm, hne,
      hver, timingSafeEqual, hmacSha256_length, hok, hgcm]

theorem hmac_check_before_cipher_amended_witness :
    NotepadEncryption.decrypt ⟨some 0, some 0, true⟩
      { version := 2, encryptedKey := ⟨0, [1]⟩, iv := [9], authTag := [8],
        content := [4], hmac := some (List.replicate 32 0) }
      = .error .integrityCheckFailed :=
  ((hmac_check_before_cipher_amended ⟨some 0, some 0, true⟩ 0
    { version := 2, encryptedKey := ⟨0, [1]⟩, iv := [2], authTag := [3],
      content := [4], hmac := some (List.replicate 32 0) }
    (List.replicate 32 0) rfl rfl rfl (by decide) (by decide)).1.1
    (by decide) (by decide) [9] [8])



/-- Model of JavaScript `String.prototype.startsWith`: character-wise
prefix test on the underlying character sequences. -/
def jsStartsWith (s pre : String) : Bool :=
  pre.toList.isPrefixOf s.toList

/-- A file-system shadow: an association list from paths (plain strings,
exactly as the source passes them to `fs`) to the stored content.  Plain
files store `Bytes`; the store of encrypted files holds the envelope the
serialized JSON parses back to. -/
abbrev FsOf (alpha : Type) := List (String × alpha)

/-- A file-system shadow holding byte contents. -/
abbrev Fs := FsOf Bytes

/-- `fs.readFileSync`-style lookup. -/
def fsFind {alpha : Type} (fs : FsOf alpha) (p : String) : Option alpha :=
  (fs.find? (fun e => e.1 == p)).map (·.2)

/-- `fs.writeFileSync`-style update (create or overwrite). -/
def fsWrite {alpha : Type} (fs : FsOf alpha) (p : String) (c : alpha) : FsOf alpha :=
  fs.filter (fun e => e.1 != p) ++ [(p, c)]

/-- `fs.unlinkSync`-style removal (no-op when missing, matching
`secureDelete`'s early return). -/
def fsErase {alpha : Type} (fs : FsOf alpha) (p : String) : FsOf alpha :=
  fs.filter (fun e => e.1 != p)

theorem fsFind_fsWrite_self {alpha : Type} (fs : FsOf alpha) (p : String) (c : alpha) :
    fsFind (fsWrite fs p c) p = some c := by
  induction fs with
  | nil => simp [fsFind, fsWrite]
  | cons e t ih =>
    by_cases h : e.1 = p
    · simp only [fsFind, fsWrite] at ih ⊢
      simp [h, ih]
    · simp only [fsFind, fsWrite] at ih ⊢
      simp [h, ih]

theorem fsFind_fsErase_self {alpha : Type} (fs : FsOf alpha) (p : String) :
    fsFind (fsErase fs p) p = none := by
  induction fs with
  | nil => rfl
  | cons e t ih =>
    by_cases h : e.1 = p
    · simp only [fsFind, fsErase] at ih ⊢
      simp [h, ih]
    · simp only [fsFind, fsErase] at ih ⊢
      simp [h, ih]

theorem find?_filter_keyNe {α : Type} (t : List (String × α)) (p q : String)
    (h : q ≠ p) :
    (t.filter (fun e => e.1 != p)).find? (fun e => e.1 == q)
      = t.find? (fun e => e.1 == q) := by
  have hpq : (p == q) = false := beq_eq_false_iff_ne.mpr (Ne.symm h)
  induction t with
  | nil => rfl
  | cons e t ih =>
    by_cases hq : e.1 = q
    · simp [List.filter_cons, List.find?_cons, hq, h]
    · by_cases hp : e.1 = p
      · simp [List.filter_cons, List.find?_cons, hq, hp, hpq, ih]
      · simp [List.filter_cons, List.find?_cons, hq, hp, ih]

theorem fsFind_fsWrite_ne {alpha : Type} (fs : FsOf alpha) (p q : String) (c : alpha) (h : q ≠ p) :
    fsFind (fsWrite fs p c) q = fsFind fs q := by
  unfold fsFind fsWrite
  rw [List.find?_append, find?_filter_keyNe fs p q h]
  have hpq : (p == q) = false := beq_eq_false_iff_ne.mpr (Ne.symm h)
  have h1 : List.find? (fun e => e.1 == q) [(p, c)] = none := by
    simp [List.find?, hpq]
  rw [h1, Option.or_none]

theorem fsFind_fsErase_ne {alpha : Type} (fs : FsOf alpha) (p q : String) (h : q ≠ p) :
    fsFind (fsErase fs p) q = fsFind fs q := by
  unfold fsFind fsErase
  rw [find?_filter_keyNe fs p q h]

/-- The fields of class `SecureTempStorage` (`src/secureTempStorage.ts`
lines 49-71) the claims concern: the detected `basePath` and the per-
session directory `tempDir = path.join(basePath, 'secureNotes-' + sessionId)`. -/
structure SecureTempStorage where
  basePath : String
  tempDir : String
deriving DecidableEq

/-- The `SecureTempStorage` constructor's directory layout
(`src/secureTempStorage.ts` lines 55-62). -/
def mkSecureTempStorage (basePath sessionId : String) : SecureTempStorage :=
  { basePath := basePath
    tempDir := basePath ++ "/secureNotes-" ++ sessionId }

namespace SecureTempStorage

/-- `SecureTempStorage.writeSecureFile` (`src/secureTempStorage.ts`
lines 178-187): rejects (throws) when `!filePath.startsWith(this.tempDir)`,
otherwise writes the file. -/
def writeSecureFile (st : SecureTempStorage) (fs : Fs) (filePath : String)
    (content : Bytes) : Except String Fs :=
  if !(jsStartsWith filePath st.tempDir) then
    .error "Cannot write outside secure temp directory"
  else
    .ok (fsWrite fs filePath content)

/-- `SecureTempStorage.readSecureFile` (`src/secureTempStorage.ts`
lines 192-199): same guard, then `fs.readFileSync` (which throws when the
file is missing). -/
def readSecureFile (st : SecureTempStorage) (fs : Fs) (filePath : String) :
    Except String Bytes :=
  if !(jsStartsWith filePath st.tempDir) then
    .error "Cannot read outside secure temp directory"
  else
    match fsFind fs filePath with
    | some c => .ok c
    | none => .error "ENOENT"

/-- `SecureTempStorage.deleteSecureFile` (`src/secureTempStorage.ts`
lines 204-212): same guard, then `secureDelete` (overwrite with zeros and
unlink; a no-op when the file is missing). -/
def deleteSecureFile (st : SecureTempStorage) (fs : Fs) (filePath : String) :
    Except String Fs :=
  if !(jsStartsWith filePath st.tempDir) then
    .error "Cannot delete outside secure temp directory"
  else
    .ok (fsErase fs filePath)

end SecureTempStorage

/-- Splits a character sequence at `/` separators. -/
def splitSlash (l : List Char) : List (List Char) :=
  l.foldr
    (fun c acc =>
      if c = '/' then [] :: acc
      else
        match acc with
        | [] => [[c]]
        | h :: t => (c :: h) :: t)
    [[]]

/-- Lexical resolution of a path into its effective component list:
empty and `.` components vanish, `..` removes the preceding component.
This is what the target path of a `fs` call with no symlinks resolves to. -/
def resolveComponents (cs : List (List Char)) : List (List Char) :=
  cs.foldl
    (fun acc c =>
      if c = [] ∨ c = ['.'] then acc
      else if c = ['.', '.'] then acc.dropLast
      else acc ++ [c])
    []

/-- Second definition following the spec's words, for comparison with the
source's check: a target path is inside the storage directory `base` iff
`base`'s resolved components are a prefix of the target's resolved
components ("all write/read/delete operations ... must reject any path
outside basePath"). -/
def specInsideBase (base p : String) : Bool :=
  (resolveComponents (splitSlash base.toList)).isPrefixOf
    (resolveComponents (splitSlash p.toList))

/-- Claim C6 counterexample: the boundary check is a literal string-prefix
test (`filePath.startsWith(this.tempDir)`) with no path normalization, so
the target `tempDir + "/../../../../etc/passwd"` — which resolves outside
both the session directory and the profile's `basePath` — is accepted:
`writeSecureFile` performs the write instead of throwing, and
`readSecureFile`/`deleteSecureFile` similarly accept it. -/
theorem sandbox_containment_counterexample :
    (specInsideBase
        (mkSecureTempStorage "/dev/shm" "0011223344556677").basePath
        ((mkSecureTempStorage "/dev/shm" "0011223344556677").tempDir
          ++ "/../../../../etc/passwd") = false) ∧
    (specInsideBase
        (mkSecureTempStorage "/dev/shm" "0011223344556677").tempDir
        ((mkSecureTempStorage "/dev/shm" "0011223344556677").tempDir
          ++ "/../../../../etc/passwd") = false) ∧
    SecureTempStorage.writeSecureFile (mkSecureTempStorage "/dev/shm" "0011223344556677") []
      ((mkSecureTempStorage "/dev/shm" "0011223344556677").tempDir
        ++ "/../../../../etc/passwd") [1]
      = .ok [((mkSecureTempStorage "/dev/shm" "0011223344556677").tempDir
        ++ "/../../../../etc/passwd", [1])] ∧
    SecureTempStorage.deleteSecureFile (mkSecureTempStorage "/dev/shm" "0011223344556677") []
      ((mkSecureTempStorage "/dev/shm" "0011223344556677").tempDir
        ++ "/../../../../etc/passwd")
      = .ok [] := by
  refine ⟨by decide, by decide, by rfl, by rfl⟩

/-- Claim C6 amended: the storage component's write, read and delete
operations reject (throw) with no file-system effect every target path
that does not start, as a literal string, with the session temp directory
— whether the target exists or not.  The check is a string-prefix test
without normalization, so paths that do start with the session directory
string but escape it via `..` components (or a sibling directory whose
name extends the session directory's name) are not rejected. -/
theorem sandbox_prefix_reject_amended (st : SecureTempStorage) (fs : Fs)
    (p : String) (c : Bytes)
    (hp : jsStartsWith p st.tempDir = false) :
    SecureTempStorage.writeSecureFile st fs p c
      = .error "Cannot write outside secure temp directory" ∧
    SecureTempStorage.readSecureFile st fs p
      = .error "Cannot read outside secure temp directory" ∧
    SecureTempStorage.deleteSecureFile st fs p
      = .error "Cannot delete outside secure temp directory" := by
  refine ⟨?_, ?_, ?_⟩ <;>
    simp [SecureTempStorage.writeSecureFile, SecureTempStorage.readSecureFile,
      SecureTempStorage.deleteSecureFile, hp]

theorem sandbox_prefix_reject_amended_witness :
    SecureTempStorage.writeSecureFile (mkSecureTempStorage "/dev/shm" "0011223344556677")
      [] "/etc/passwd" [1]
      = .error "Cannot write outside secure temp directory" ∧
    SecureTempStorage.readSecureFile (mkSecureTempStorage "/dev/shm" "0011223344556677")
      [] "/etc/passwd"
      = .error "Cannot read outside secure temp directory" ∧
    SecureTempStorage.deleteSecureFile (mkSecureTempStorage "/dev/shm" "0011223344556677")
      [] "/etc/passwd"
      = .error "Cannot delete outside secure temp directory" :=
  sandbox_prefix_reject_amended (mkSecureTempStorage "/dev/shm" "0011223344556677")
    [] "/etc/passwd" [1] (by decide)

/-- `TempFileState` (`src/types.ts`): the record binding one plaintext
temp file to its encrypted path.  (The `watcher` handle and the
`lastModified` timestamp are host bookkeeping with no effect on the
claims.) -/
structure TempFileState where
  tempPath : String
  encryptedPath : String
deriving DecidableEq

/-- The state of class `TempFileManager` (`src/tempFileManager.ts`
lines 40-47) together with the file-system shadow and engine it acts on:
`tempFiles` is the `Map` keyed by temp path (as an insertion-ordered
association list), `saveInProgress` the guard set, `plain` the plaintext
files on disk, `encStore` the encrypted files at their original
locations, `rngCtr` a counter feeding the model of `crypto.randomBytes`,
and `tempDir` the per-session directory. -/
structure TFMState where
  tempFiles : List TempFileState
  saveInProgress : List String
  engine : EngineState
  plain : FsOf Bytes
  encStore : FsOf EncryptedFile
  rngCtr : Nat
  tempDir : String
deriving DecidableEq

namespace TempFileManager

/-- `this.tempFiles.get(tempPath)` — `Map` lookup by key. -/
def findRecord (s : TFMState) (tp : String) : Option TempFileState :=
  s.tempFiles.find? (fun r => r.tempPath == tp)

/-- `TempFileManager.findByEncryptedPath` (`src/tempFileManager.ts`
lines 315-322): first record whose `encryptedPath` matches. -/
def findByEncryptedPath (s : TFMState) (ep : String) : Option TempFileState :=
  s.tempFiles.find? (fun r => r.encryptedPath == ep)

/-- `this.tempFiles.set(tempPath, state)` — `Map` insert/overwrite keyed
by `tempPath`. -/
def setRecord (l : List TempFileState) (r : TempFileState) : List TempFileState :=
  l.filter (fun x => x.tempPath != r.tempPath) ++ [r]

/-- `this.tempFiles.delete(tempPath)`. -/
def eraseRecord (l : List TempFileState) (tp : String) : List TempFileState :=
  l.filter (fun x => x.tempPath != tp)

/-- Model of the `crypto.randomBytes(32)` draw for the AES key: the
`ctr`-th draw of the session. -/
def rngKey (ctr : Nat) : Bytes :=
  List.replicate 32 ((ctr : Byte) + 1)

/-- Model of the `crypto.randomBytes(16)` draw for the IV. -/
def rngIv (ctr : Nat) : Bytes :=
  List.replicate 16 ((ctr : Byte) + 2)

/-- `path.basename`: the part after the last `/`. -/
def basenameChars (l : List Char) : List Char :=
  ((splitSlash l).getLast?).getD []

/-- `.replace(/\.enc$/, '')`: drops a trailing `.enc`. -/
def dropEncExt (l : List Char) : List Char :=
  if [Char.ofNat 46, Char.ofNat 101, Char.ofNat 110, Char.ofNat 99].isSuffixOf l then
    l.take (l.length - 4)
  else l

/-- Model of the truncated MD5 in `createTempPath`
(`crypto.createHash('md5').update(encryptedPath).digest('hex').slice(0, 8)`):
a deterministic digest of the path, not assumed injective. -/
def hash8 (sv : String) : List Char :=
  Nat.toDigits 10 (sv.toList.foldl (fun acc c => (acc * 31 + c.toNat) % 4294967296) 0)

/-- `TempFileManager.createTempPath` (`src/tempFileManager.ts`
lines 302-310): `path.join(tempDir, hash8(encryptedPath) + '_' + fileName)`
where `fileName` is the basename without its `.enc` extension.
Deterministic in the encrypted path. -/
def createTempPath (s : TFMState) (ep : String) : String :=
  s.tempDir ++ "/" ++ String.mk (hash8 ep) ++ "_"
    ++ String.mk (dropEncExt (basenameChars ep.toList))

/-- `NotepadEncryption.encryptFile` (`src/encryption.ts` lines 481-489)
called on a plaintext temp file: reads the source file (throws when
missing, modelled as `none`), encrypts its content (throws when the
engine holds no public key), and writes the serialized envelope to the
destination.  `none` models a throw. -/
def encryptFileOp (s : TFMState) (src dst : String) : Option TFMState :=
  match fsFind s.plain src with
  | none => none
  | some content =>
    match NotepadEncryption.encrypt s.engine (rngKey s.rngCtr) (rngIv s.rngCtr) content with
    | .error _ => none
    | .ok env =>
      some { s with encStore := fsWrite s.encStore dst env, rngCtr := s.rngCtr + 1 }

/-- `TempFileManager.reEncryptFile` (`src/tempFileManager.ts`
lines 376-386): calls `encryptFile` inside a try/catch whose catch only
logs and shows an error message — a failure is swallowed and the state
left unchanged; the caller cannot observe it. -/
def reEncryptFile (s : TFMState) (tp ep : String) : TFMState :=
  (encryptFileOp s tp ep).getD s

/-- `TempFileManager.handleFileChange` (`src/tempFileManager.ts`
lines 353-371): returns immediately when a save for this temp path is
already in progress; otherwise, when a record exists, re-encrypts it
(adding and removing the guard around the call leaves the guard set
unchanged). -/
def handleFileChange (s : TFMState) (tp : String) : TFMState :=
  if tp ∈ s.saveInProgress then s
  else
    match findRecord s tp with
    | none => s
    | some st => reEncryptFile s tp st.encryptedPath

/-- The body of `TempFileManager.openEncryptedFile` after the unlock
check (`src/tempFileManager.ts` lines 130-167): decrypt the file (a
missing file or failed decryption is caught: no record is created),
derive the temp path, write the plaintext with secure permissions, and
record the mapping.  Returns the surfaced temp path. -/
def openUnlockedStep (s : TFMState) (ep : String) : Option String × TFMState :=
  match fsFind s.encStore ep with
  | none => (none, s)
  | some env =>
    match NotepadEncryption.decrypt s.engine env with
    | .error _ => (none, s)
    | .ok content =>
      let tp := createTempPath s ep
      (some tp,
        { s with plain := fsWrite s.plain tp content,
                 tempFiles := setRecord s.tempFiles ⟨tp, ep⟩ })

/-- `TempFileManager.openEncryptedFile` (`src/tempFileManager.ts`
lines 113-168): when a record for this encrypted path already exists,
only focus its temp file (no second record, no second plaintext copy);
otherwise unlock the engine if needed (aborting when unlock fails) and
run the decrypt-write-record body. -/
def openEncryptedFile (s : TFMState) (ep : String) (keyEnv : KeyEnv)
    (promptResult : Option Bytes) : Option String × TFMState :=
  match findByEncryptedPath s ep with
  | some st => (some st.tempPath, s)
  | none =>
    if s.engine.isUnlocked then openUnlockedStep s ep
    else
      let u := NotepadEncryption.unlock s.engine keyEnv promptResult
      if u.1 then openUnlockedStep { s with engine := u.2 } ep
      else (none, { s with engine := u.2 })

/-- `TempFileManager.createEncryptedFile` body after the unlock check
(`src/tempFileManager.ts` lines 182-197): encrypt an empty buffer, write
the envelope to the encrypted path, then open it. -/
def createUnlockedStep (s : TFMState) (ep : String) (keyEnv : KeyEnv)
    (promptResult : Option Bytes) : TFMState :=
  match NotepadEncryption.encrypt s.engine (rngKey s.rngCtr) (rngIv s.rngCtr) [] with
  | .error _ => s
  | .ok env =>
    (openEncryptedFile
      { s with encStore := fsWrite s.encStore ep env, rngCtr := s.rngCtr + 1 }
      ep keyEnv promptResult).2

/-- `TempFileManager.createEncryptedFile` (`src/tempFileManager.ts`
lines 173-198). -/
def createEncryptedFile (s : TFMState) (ep : String) (keyEnv : KeyEnv)
    (promptResult : Option Bytes) : TFMState :=
  if s.engine.isUnlocked then createUnlockedStep s ep keyEnv promptResult
  else
    let u := NotepadEncryption.unlock s.engine keyEnv promptResult
    if u.1 then createUnlockedStep { s with engine := u.2 } ep keyEnv promptResult
    else { s with engine := u.2 }

/-- `TempFileManager.cleanupTempFile` (`src/tempFileManager.ts`
lines 484-503): dispose the watcher, securely delete the temp file
(overwrite with zeros, then unlink), drop the record. -/
def cleanupTempFile (s : TFMState) (tp : String) : TFMState :=
  match findRecord s tp with
  | none => s
  | some _ =>
    { s with plain := fsErase s.plain tp,
             tempFiles := eraseRecord s.tempFiles tp }

/-- `TempFileManager.cleanupTempFileAsync` (`src/tempFileManager.ts`
lines 451-478): when a record exists, wait for an in-progress save (the
bounded 200 ms sleep; with the host's run-to-completion event semantics a
pending `handleFileChange` has finished by then, and between the atomic
events of this model the guard set is empty), force one final
re-encryption of the temp file's current content when the file still
exists (a failure is swallowed by `reEncryptFile` and cleanup continues,
per the source comment), and only then run `cleanupTempFile`. -/
def cleanupTempFileAsync (s : TFMState) (tp : String) : TFMState :=
  match findRecord s tp with
  | none => s
  | some st =>
    let s1 := if (fsFind s.plain tp).isSome then reEncryptFile s tp st.encryptedPath else s
    cleanupTempFile s1 tp

/-- `TempFileManager.onFileMovedOrDeleted` (`src/tempFileManager.ts`
lines 218-231): close the editors showing the temp file and run the
async cleanup. -/
def onFileMovedOrDeleted (s : TFMState) (ep : String) : TFMState :=
  match findByEncryptedPath s ep with
  | none => s
  | some st => cleanupTempFileAsync s st.tempPath

/-- `TempFileManager.saveAndCloseBeforeMove` (`src/tempFileManager.ts`
lines 252-293): `true` when no record is open; otherwise save the dirty
document if any (`dirtyDoc` is the editor buffer when `doc.isDirty`),
force a final `reEncryptFile` when the temp file exists (whose internal
catch swallows encryption failures), close tabs, dispose the watcher,
securely delete the plaintext, drop the record, and return `true`.  The
catch branch that returns `false` is reachable only from `doc.save()`
itself throwing, not from a failed flush. -/
def saveAndCloseBeforeMove (s : TFMState) (ep : String)
    (dirtyDoc : Option Bytes) : Bool × TFMState :=
  match findByEncryptedPath s ep with
  | none => (true, s)
  | some st =>
    let s1 := match dirtyDoc with
      | some buf => { s with plain := fsWrite s.plain st.tempPath buf }
      | none => s
    let s2 := if (fsFind s1.plain st.tempPath).isSome then
        reEncryptFile s1 st.tempPath st.encryptedPath
      else s1
    (true,
      { s2 with plain := fsErase s2.plain st.tempPath,
                tempFiles := eraseRecord s2.tempFiles st.tempPath })

/-- `TempFileManager.dispose` (`src/tempFileManager.ts` lines 512-537):
dispose the listeners, securely delete every record's temp file, clear
the map, and remove the session temp directory recursively (removing
every remaining file whose path starts with it).  No re-encryption is
performed. -/
def dispose (s : TFMState) : TFMState :=
  let plain1 := s.tempFiles.foldl (fun fs r => fsErase fs r.tempPath) s.plain
  { s with tempFiles := [],
           plain := plain1.filter (fun e => !(jsStartsWith e.1 s.tempDir)) }

/-- The manager's state right after the constructor
(`src/tempFileManager.ts` lines 48-91): no records, no in-flight saves,
a fresh session temp directory; the engine and the pre-existing encrypted
files are parameters of the session. -/
def initState (tempDir : String) (engine : EngineState)
    (enc : FsOf EncryptedFile) : TFMState :=
  { tempFiles := [], saveInProgress := [], engine := engine, plain := [],
    encStore := enc, rngCtr := 0, tempDir := tempDir }

/-- One event of the manager: each public operation, a host edit of a
plaintext file, and an engine lock/unlock, as fired by the host's
callbacks. -/
inductive Step : TFMState → TFMState → Prop where
  | openFile (s : TFMState) (ep : String) (keyEnv : KeyEnv) (promptResult : Option Bytes) :
      Step s (openEncryptedFile s ep keyEnv promptResult).2
  | createFile (s : TFMState) (ep : String) (keyEnv : KeyEnv) (promptResult : Option Bytes) :
      Step s (createEncryptedFile s ep keyEnv promptResult)
  | fileChange (s : TFMState) (tp : String) : Step s (handleFileChange s tp)
  | cleanupAsync (s : TFMState) (tp : String) : Step s (cleanupTempFileAsync s tp)
  | cleanupSync (s : TFMState) (tp : String) : Step s (cleanupTempFile s tp)
  | movedOrDeleted (s : TFMState) (ep : String) : Step s (onFileMovedOrDeleted s ep)
  | saveAndClose (s : TFMState) (ep : String) (dirtyDoc : Option Bytes) :
      Step s (saveAndCloseBeforeMove s ep dirtyDoc).2
  | disposeStep (s : TFMState) : Step s (dispose s)
  | hostEdit (s : TFMState) (tp : String) (b : Bytes) :
      Step s { s with plain := fsWrite s.plain tp b }
  | engineLock (s : TFMState) : Step s { s with engine := NotepadEncryption.lock s.engine }
  | engineUnlock (s : TFMState) (keyEnv : KeyEnv) (promptResult : Option Bytes) :
      Step s { s with engine := (NotepadEncryption.unlock s.engine keyEnv promptResult).2 }

/-- States reachable from a fresh manager. -/
def Reachable (s0 s : TFMState) : Prop :=
  Relation.ReflTransGen Step s0 s

/-- The single-record invariant: no two records share an encrypted path. -/
def oneRecordPerPath (s : TFMState) : Prop :=
  s.tempFiles.Pairwise (fun a b => a.encryptedPath ≠ b.encryptedPath)

end TempFileManager

namespace TempFileManager

theorem reEncryptFile_shape (s : TFMState) (tp ep : String) :
    ∃ es ctr, reEncryptFile s tp ep = { s with encStore := es, rngCtr := ctr } := by
  unfold reEncryptFile encryptFileOp
  split
  · exact ⟨s.encStore, s.rngCtr, rfl⟩
  · split
    · exact ⟨s.encStore, s.rngCtr, rfl⟩
    · exact ⟨_, _, rfl⟩

theorem pairwise_setRecord (l : List TempFileState) (r : TempFileState)
    (hl : l.Pairwise (fun a b => a.encryptedPath ≠ b.encryptedPath))
    (hnone : l.find? (fun x => x.encryptedPath == r.encryptedPath) = none) :
    (setRecord l r).Pairwise (fun a b => a.encryptedPath ≠ b.encryptedPath) := by
  unfold setRecord
  rw [List.pairwise_append]
  refine ⟨hl.filter _, by simp, ?_⟩
  intro a ha b hb
  rw [List.mem_singleton] at hb
  subst hb
  have ha' : a ∈ l := List.mem_of_mem_filter ha
  have := List.find?_eq_none.mp hnone a ha'
  simpa using this

theorem find?_setRecord_encPath (l : List TempFileState) (r : TempFileState)
    (hnone : l.find? (fun x => x.encryptedPath == r.encryptedPath) = none) :
    (setRecord l r).find? (fun x => x.encryptedPath == r.encryptedPath) = some r := by
  unfold setRecord
  rw [List.find?_append]
  have hleft : (l.filter (fun x => x.tempPath != r.tempPath)).find?
      (fun x => x.encryptedPath == r.encryptedPath) = none := by
    rw [List.find?_eq_none] at hnone ⊢
    intro x hx
    exact hnone x (List.mem_of_mem_filter hx)
  rw [hleft]
  simp [List.find?_cons]

theorem oneRecord_openUnlockedStep (s : TFMState) (ep : String)
    (h : oneRecordPerPath s) (hnone : findByEncryptedPath s ep = none) :
    oneRecordPerPath (openUnlockedStep s ep).2 := by
  unfold openUnlockedStep
  split
  · exact h
  · split
    · exact h
    · exact pairwise_setRecord s.tempFiles ⟨createTempPath s ep, ep⟩ h hnone

theorem oneRecord_open (s : TFMState) (ep : String) (kE : KeyEnv)
    (pr : Option Bytes) (h : oneRecordPerPath s) :
    oneRecordPerPath (openEncryptedFile s ep kE pr).2 := by
  unfold openEncryptedFile
  split
  · exact h
  next hfind =>
    split
    · exact oneRecord_openUnlockedStep s ep h hfind
    · dsimp only
      split
      · exact oneRecord_openUnlockedStep
          { s with engine := (NotepadEncryption.unlock s.engine kE pr).2 } ep h hfind
      · exact h

theorem oneRecord_create (s : TFMState) (ep : String) (kE : KeyEnv)
    (pr : Option Bytes) (h : oneRecordPerPath s) :
    oneRecordPerPath (createEncryptedFile s ep kE pr) := by
  have hstep : ∀ s1 : TFMState, oneRecordPerPath s1 →
      oneRecordPerPath (createUnlockedStep s1 ep kE pr) := by
    intro s1 h1
    unfold createUnlockedStep
    split
    · exact h1
    · exact oneRecord_open _ ep kE pr h1
  unfold createEncryptedFile
  split
  · exact hstep s h
  · dsimp only
    split
    · exact hstep { s with engine := (NotepadEncryption.unlock s.engine kE pr).2 } h
    · exact h

theorem oneRecord_cleanup (s : TFMState) (tp : String) (h : oneRecordPerPath s) :
    oneRecordPerPath (cleanupTempFile s tp) := by
  unfold cleanupTempFile
  split
  · exact h
  · exact h.filter _

theorem oneRecord_fileChange (s : TFMState) (tp : String) (h : oneRecordPerPath s) :
    oneRecordPerPath (handleFileChange s tp) := by
  unfold handleFileChange
  split
  · exact h
  · split
    · exact h
    next st _ =>
      obtain ⟨es, ctr, heq⟩ := reEncryptFile_shape s tp st.encryptedPath
      rw [heq]
      exact h

theorem oneRecord_cleanupAsync (s : TFMState) (tp : String)
    (h : oneRecordPerPath s) : oneRecordPerPath (cleanupTempFileAsync s tp) := by
  unfold cleanupTempFileAsync
  split
  · exact h
  next st _ =>
    split
    · obtain ⟨es, ctr, heq⟩ := reEncryptFile_shape s tp st.encryptedPath
      rw [heq]
      exact oneRecord_cleanup _ tp h
    · exact oneRecord_cleanup _ tp h

theorem oneRecord_moved (s : TFMState) (ep : String) (h : oneRecordPerPath s) :
    oneRecordPerPath (onFileMovedOrDeleted s ep) := by
  unfold onFileMovedOrDeleted
  split
  · exact h
  next st _ => exact oneRecord_cleanupAsync s st.tempPath h

theorem reEncryptFile_tempFiles (s : TFMState) (tp ep : String) :
    (reEncryptFile s tp ep).tempFiles = s.tempFiles := by
  obtain ⟨es, ctr, heq⟩ := reEncryptFile_shape s tp ep
  rw [heq]

theorem oneRecord_saveAndClose (s : TFMState) (ep : String)
    (dirtyDoc : Option Bytes) (h : oneRecordPerPath s) :
    oneRecordPerPath (saveAndCloseBeforeMove s ep dirtyDoc).2 := by
  unfold saveAndCloseBeforeMove
  split
  · exact h
  next st _ =>
    simp only [oneRecordPerPath]
    have hclose : ∀ l : List TempFileState, l = s.tempFiles →
        List.Pairwise (fun a b => a.encryptedPath ≠ b.encryptedPath)
          (eraseRecord l st.tempPath) := by
      intro l hl
      rw [hl]
      exact h.filter _
    split
    all_goals first
      | exact hclose _ (by rw [reEncryptFile_tempFiles]; cases dirtyDoc <;> rfl)
      | exact hclose _ (by cases dirtyDoc <;> rfl)

theorem oneRecord_dispose (s : TFMState) :
    oneRecordPerPath (dispose s) := by
  simp [dispose, oneRecordPerPath]

end TempFileManager

namespace TempFileManager

theorem reachable_oneRecord (d : String) (e0 : EngineState)
    (enc : FsOf EncryptedFile) (s : TFMState)
    (hreach : Reachable (initState d e0 enc) s) : oneRecordPerPath s := by
  induction hreach with
  | refl => simp [oneRecordPerPath, initState]
  | tail hsteps hstep ih =>
    cases hstep with
    | openFile ep kE pr => exact oneRecord_open _ ep kE pr ih
    | createFile ep kE pr => exact oneRecord_create _ ep kE pr ih
    | fileChange tp => exact oneRecord_fileChange _ tp ih
    | cleanupAsync tp => exact oneRecord_cleanupAsync _ tp ih
    | cleanupSync tp => exact oneRecord_cleanup _ tp ih
    | movedOrDeleted ep => exact oneRecord_moved _ ep ih
    | saveAndClose ep dd => exact oneRecord_saveAndClose _ ep dd ih
    | disposeStep => exact oneRecord_dispose _
    | hostEdit tp b => exact ih
    | engineLock => exact ih
    | engineUnlock kE pr => exact ih

theorem length_filter_le_one_of_pairwise (l : List TempFileState) (ep : String)
    (h : l.Pairwise (fun a b => a.encryptedPath ≠ b.encryptedPath)) :
    (l.filter (fun r => r.encryptedPath == ep)).length ≤ 1 := by
  induction l with
  | nil => simp
  | cons a t ih =>
    rw [List.pairwise_cons] at h
    obtain ⟨ha, ht⟩ := h
    by_cases hm : a.encryptedPath = ep
    · have hnil : t.filter (fun r => r.encryptedPath == ep) = [] := by
        rw [List.filter_eq_nil_iff]
        intro r hr
        have hne := ha r hr
        rw [hm] at hne
        simp [Ne.symm hne]
      simp [List.filter_cons, hm, hnil]
    · simp only [List.filter_cons]
      have : (a.encryptedPath == ep) = false := beq_eq_false_iff_ne.mpr hm
      rw [this]
      exact ih ht

theorem openUnlockedStep_find (s1 : TFMState) (ep t : String) (s2 : TFMState)
    (hf : findByEncryptedPath s1 ep = none)
    (hstep : openUnlockedStep s1 ep = (some t, s2)) :
    findByEncryptedPath s2 ep = some ⟨t, ep⟩ := by
  unfold openUnlockedStep at hstep
  split at hstep
  · exact absurd (congrArg Prod.fst hstep) (by simp)
  · split at hstep
    · exact absurd (congrArg Prod.fst hstep) (by simp)
    · rw [Prod.mk.injEq] at hstep
      obtain ⟨ht, hs⟩ := hstep
      rw [Option.some.injEq] at ht
      subst ht
      subst hs
      exact find?_setRecord_encPath s1.tempFiles ⟨createTempPath s1 ep, ep⟩ hf

theorem openEncryptedFile_twice (s : TFMState) (ep : String) (kE kE' : KeyEnv)
    (pr pr' : Option Bytes) (t : String) (s1 : TFMState)
    (h1 : openEncryptedFile s ep kE pr = (some t, s1)) :
    openEncryptedFile s1 ep kE' pr' = (some t, s1) := by
  unfold openEncryptedFile at h1 ⊢
  split at h1
  next st hfind =>
    rw [Prod.mk.injEq] at h1
    obtain ⟨ht, hs⟩ := h1
    subst hs
    rw [hfind]
    exact congrArg (fun o => (o, s)) ht
  next hfind =>
    have hkey : ∀ sMid : TFMState, sMid.tempFiles = s.tempFiles →
        openUnlockedStep sMid ep = (some t, s1) →
        (match findByEncryptedPath s1 ep with
          | some st => ((some st.tempPath, s1) : Option String × TFMState)
          | none =>
            if s1.engine.isUnlocked = true then openUnlockedStep s1 ep
            else
              let u := NotepadEncryption.unlock s1.engine kE' pr';
              if u.1 = true then openUnlockedStep { s1 with engine := u.2 } ep
              else (none, { s1 with engine := u.2 })) = (some t, s1) := by
      intro sMid hteq hstep
      have hfindMid : findByEncryptedPath sMid ep = none := by
        unfold findByEncryptedPath
        rw [hteq]
        exact hfind
      have := openUnlockedStep_find sMid ep t s1 hfindMid hstep
      rw [this]
    split at h1
    · exact hkey s rfl h1
    · dsimp only at h1
      split at h1
      · exact hkey { s with engine := (NotepadEncryption.unlock s.engine kE pr).2 } rfl h1
      · exact absurd (congrArg Prod.fst h1) (by simp)

end TempFileManager

/-- Claim C5: at every state of the lifecycle manager reachable from a
fresh session, at most one record exists per distinct encrypted path, and
calling `openEncryptedFile` twice in succession for the same encrypted
path surfaces the same plaintext path both times and leaves the record
map unchanged the second time (no second record, no second plaintext
copy). -/
theorem single_record_per_encrypted_path (d : String) (e0 : EngineState)
    (enc : FsOf EncryptedFile) (s : TFMState)
    (hreach : TempFileManager.Reachable (TempFileManager.initState d e0 enc) s) :
    (∀ ep, (s.tempFiles.filter (fun r => r.encryptedPath == ep)).length ≤ 1) ∧
    (∀ ep kE pr kE' pr' t s1,
      TempFileManager.openEncryptedFile s ep kE pr = (some t, s1) →
      TempFileManager.openEncryptedFile s1 ep kE' pr' = (some t, s1)) := by
  constructor
  · intro ep
    exact TempFileManager.length_filter_le_one_of_pairwise s.tempFiles ep
      (TempFileManager.reachable_oneRecord d e0 enc s hreach)
  · intro ep kE pr kE' pr' t s1 h1
    exact TempFileManager.openEncryptedFile_twice s ep kE kE' pr pr' t s1 h1

/-- A demo engine holding key pair 0, unlocked. -/
def demoEngine : EngineState := ⟨some 0, some 0, true⟩

/-- A demo envelope: a valid encryption of `[1]` under key pair 0. -/
def demoEnv : EncryptedFile :=
  (NotepadEncryption.encrypt demoEngine [1] [2] [1]).toOption.getD default

/-- A demo key-file environment for pair 0, unprotected private key. -/
def demoKeyEnv : KeyEnv := ⟨true, true, some 0, some ⟨0, none⟩, 0o600, false⟩

/-- A fresh demo manager session over one encrypted file `"e"`. -/
def demoInit : TFMState := TempFileManager.initState "/d" demoEngine [("e", demoEnv)]

/-- The demo session after one `openEncryptedFile "e"`. -/
def demoOpen : Option String × TFMState :=
  TempFileManager.openEncryptedFile demoInit "e" demoKeyEnv none

theorem single_record_per_encrypted_path_witness :
    ((demoOpen.2.tempFiles.filter (fun r => r.encryptedPath == "e")).length ≤ 1) ∧
    TempFileManager.openEncryptedFile demoOpen.2 "e" demoKeyEnv none
      = (some (TempFileManager.createTempPath demoInit "e"), demoOpen.2) := by
  constructor
  · exact (single_record_per_encrypted_path "/d" demoEngine [("e", demoEnv)] demoOpen.2
      (Relation.ReflTransGen.single
        (TempFileManager.Step.openFile demoInit "e" demoKeyEnv none))).1 "e"
  · exact (single_record_per_encrypted_path "/d" demoEngine [("e", demoEnv)] demoInit
      Relation.ReflTransGen.refl).2 "e" demoKeyEnv none demoKeyEnv none
      (TempFileManager.createTempPath demoInit "e") demoOpen.2 rfl

namespace TempFileManager

theorem find?_eraseRecord_self (l : List TempFileState) (tp : String) :
    (eraseRecord l tp).find? (fun r => r.tempPath == tp) = none := by
  rw [List.find?_eq_none]
  intro x hx
  have hmem := (List.mem_filter.mp hx).2
  simp only [bne_iff_ne, ne_eq, decide_eq_true_eq] at hmem
  simp [hmem]

end TempFileManager

/-- Claim C1 amended, success case: when a record is open for `tp`, the
plaintext file exists with `content`, and the engine is unlocked with a
matching key pair, a close-triggered `cleanupTempFileAsync` performs the
final re-encryption of the plaintext's current content to the encrypted
path and the erasure it then runs: afterwards the record is dropped, the
plaintext file is gone, and the persisted envelope decrypts to exactly
`content`. -/
theorem cleanup_flushes_then_erases (s : TFMState) (tp ep : String) (n : Nat)
    (content : Bytes)
    (hrec : TempFileManager.findRecord s tp = some ⟨tp, ep⟩)
    (hplain : fsFind s.plain tp = some content)
    (hpub : s.engine.publicKey = some n) (hpriv : s.engine.privateKey = some n) :
    TempFileManager.findRecord (TempFileManager.cleanupTempFileAsync s tp) tp = none ∧
    fsFind (TempFileManager.cleanupTempFileAsync s tp).plain tp = none ∧
    ∃ env, fsFind (TempFileManager.cleanupTempFileAsync s tp).encStore ep = some env ∧
      NotepadEncryption.decrypt s.engine env = .ok content := by
  obtain ⟨env, henc⟩ : ∃ env,
      NotepadEncryption.encrypt s.engine (TempFileManager.rngKey s.rngCtr)
        (TempFileManager.rngIv s.rngCtr) content = .ok env := by
    simp only [NotepadEncryption.encrypt, hpub]
    exact ⟨_, rfl⟩
  have hre : TempFileManager.reEncryptFile s tp ep
      = { s with encStore := fsWrite s.encStore ep env, rngCtr := s.rngCtr + 1 } := by
    unfold TempFileManager.reEncryptFile TempFileManager.encryptFileOp
    rw [hplain]
    dsimp only
    rw [henc]
    rfl
  have hclean : TempFileManager.cleanupTempFileAsync s tp
      = { s with plain := fsErase s.plain tp,
                 tempFiles := TempFileManager.eraseRecord s.tempFiles tp,
                 encStore := fsWrite s.encStore ep env,
                 rngCtr := s.rngCtr + 1 } := by
    unfold TempFileManager.cleanupTempFileAsync
    rw [hrec]
    simp only [hplain, Option.isSome_some, if_true]
    rw [hre]
    unfold TempFileManager.cleanupTempFile
    have : TempFileManager.findRecord
        { s with encStore := fsWrite s.encStore ep env, rngCtr := s.rngCtr + 1 } tp
        = some ⟨tp, ep⟩ := hrec
    rw [this]
  rw [hclean]
  refine ⟨TempFileManager.find?_eraseRecord_self s.tempFiles tp,
    fsFind_fsErase_self s.plain tp, env, fsFind_fsWrite_self s.encStore ep env, ?_⟩
  exact decrypt_of_encrypt_eq s.engine s.engine n _ _ content env hpub hpriv henc

/-- A manager state with one open record whose plaintext was edited to
`[2]` while the persisted envelope still holds `[1]`; engine unlocked. -/
def flushState : TFMState :=
  { tempFiles := [⟨"t", "e"⟩], saveInProgress := [], engine := demoEngine,
    plain := [("t", [2])], encStore := [("e", demoEnv)], rngCtr := 0,
    tempDir := "/d" }

/-- The same state with the engine locked (keys cleared). -/
def flushStateLocked : TFMState :=
  { flushState with engine := ⟨none, none, false⟩ }

theorem cleanup_flushes_then_erases_witness :
    TempFileManager.findRecord (TempFileManager.cleanupTempFileAsync flushState "t") "t" = none ∧
    fsFind (TempFileManager.cleanupTempFileAsync flushState "t").plain "t" = none ∧
    ∃ env, fsFind (TempFileManager.cleanupTempFileAsync flushState "t").encStore "e" = some env ∧
      NotepadEncryption.decrypt flushState.engine env = .ok [2] :=
  cleanup_flushes_then_erases flushState "t" "e" 0 [2] rfl rfl rfl rfl

/-- Claim C1 counterexample: with the engine locked, the close-triggered
cleanup's final re-encryption fails (`encrypt` throws `NotUnlocked`,
swallowed inside `reEncryptFile`), yet the erasure still completes: the
plaintext (`[2]`) is destroyed, the record dropped, and the persisted
envelope still decrypts to the stale `[1]` — the erasure completed before
(indeed without) the last edit being durably re-encrypted. -/
theorem cleanup_erasure_despite_failed_flush_counterexample :
    fsFind (TempFileManager.cleanupTempFileAsync flushStateLocked "t").plain "t" = none ∧
    TempFileManager.findRecord (TempFileManager.cleanupTempFileAsync flushStateLocked "t") "t" = none ∧
    (TempFileManager.cleanupTempFileAsync flushStateLocked "t").encStore = [("e", demoEnv)] ∧
    NotepadEncryption.decrypt demoEngine demoEnv = .ok [1] ∧
    fsFind flushStateLocked.plain "t" = some [2] ∧
    ([2] : Bytes) ≠ [1] :=
  ⟨rfl, rfl, rfl, rfl, rfl, by decide⟩

/-- Claim C9: `saveAndCloseBeforeMove` at a state where the record is open
but the flush cannot succeed (engine locked, so `encryptFile` throws
`NotUnlocked`, swallowed inside `reEncryptFile`'s own catch): the call
nevertheless returns `true`, erases the plaintext and drops the record,
leaving the stale envelope — the caller cannot abort the move.  This
contradicts the function's own doc comment ("@returns true if save was
successful or file wasn't open, false on error"). -/
theorem saveAndCloseBeforeMove_true_despite_failed_flush :
    (TempFileManager.saveAndCloseBeforeMove flushStateLocked "e" none).1 = true ∧
    fsFind (TempFileManager.saveAndCloseBeforeMove flushStateLocked "e" none).2.plain "t" = none ∧
    TempFileManager.findRecord
      (TempFileManager.saveAndCloseBeforeMove flushStateLocked "e" none).2 "t" = none ∧
    (TempFileManager.saveAndCloseBeforeMove flushStateLocked "e" none).2.encStore
      = [("e", demoEnv)] ∧
    NotepadEncryption.encrypt flushStateLocked.engine (TempFileManager.rngKey 0)
      (TempFileManager.rngIv 0) [2] = .error .notUnlocked :=
  ⟨rfl, rfl, rfl, rfl, rfl⟩

theorem fsFind_fsErase_of_none {alpha : Type} (fs : FsOf alpha) (k q : String)
    (h : fsFind fs k = none) : fsFind (fsErase fs q) k = none := by
  by_cases hq : k = q
  · subst hq
    exact fsFind_fsErase_self fs k
  · rw [fsFind_fsErase_ne fs q k hq]
    exact h

theorem fsFind_foldl_erase_of_none (l : List TempFileState) (fs : Fs)
    (k : String) (h : fsFind fs k = none) :
    fsFind (l.foldl (fun a r => fsErase a r.tempPath) fs) k = none := by
  induction l generalizing fs with
  | nil => exact h
  | cons r t ih =>
    rw [List.foldl_cons]
    exact ih (fsErase fs r.tempPath) (fsFind_fsErase_of_none fs k r.tempPath h)

theorem fsFind_foldl_erase_mem (l : List TempFileState) (fs : Fs)
    (r : TempFileState) (hr : r ∈ l) :
    fsFind (l.foldl (fun a x => fsErase a x.tempPath) fs) r.tempPath = none := by
  induction l generalizing fs with
  | nil => cases hr
  | cons x t ih =>
    rw [List.foldl_cons]
    rcases List.mem_cons.mp hr with heq | hmem
    · subst heq
      exact fsFind_foldl_erase_of_none t (fsErase fs r.tempPath) r.tempPath
        (fsFind_fsErase_self fs r.tempPath)
    · exact ih (fsErase fs x.tempPath) hmem

theorem fsFind_filter_of_none {alpha : Type} (fs : FsOf alpha)
    (q : String × alpha → Bool) (k : String) (h : fsFind fs k = none) :
    fsFind (fs.filter q) k = none := by
  simp only [fsFind, Option.map_eq_none'] at h ⊢
  rw [List.find?_eq_none] at h ⊢
  intro x hx
  exact h x (List.mem_of_mem_filter hx)

theorem fsFind_filter_notStarts (fs : Fs) (d p : String)
    (hp : jsStartsWith p d = true) :
    fsFind (fs.filter (fun e => !(jsStartsWith e.1 d))) p = none := by
  simp only [fsFind, Option.map_eq_none']
  rw [List.find?_eq_none]
  intro x hx
  have hflt := (List.mem_filter.mp hx).2
  intro hbeq
  rw [beq_iff_eq] at hbeq
  rw [hbeq, hp] at hflt
  simp at hflt

/-- Claim C10 amended: `dispose` clears the record map, securely erases
every active record's plaintext file and removes the session storage
directory (every remaining file under `tempDir`), but performs NO final
re-encryption: the store of encrypted files is left exactly as it was, so
edits not yet re-encrypted are not persisted. -/
theorem dispose_erases_all_without_flush (s : TFMState) :
    (TempFileManager.dispose s).tempFiles = [] ∧
    (TempFileManager.dispose s).encStore = s.encStore ∧
    (∀ r, r ∈ s.tempFiles →
      fsFind (TempFileManager.dispose s).plain r.tempPath = none) ∧
    (∀ p, jsStartsWith p s.tempDir = true →
      fsFind (TempFileManager.dispose s).plain p = none) := by
  refine ⟨rfl, rfl, ?_, ?_⟩
  · intro r hr
    exact fsFind_filter_of_none _ _ r.tempPath
      (fsFind_foldl_erase_mem s.tempFiles s.plain r hr)
  · intro p hp
    exact fsFind_filter_notStarts _ s.tempDir p hp

theorem dispose_erases_all_without_flush_witness :
    fsFind (TempFileManager.dispose flushState).plain "t" = none ∧
    fsFind (TempFileManager.dispose flushState).plain "/d/x" = none :=
  ⟨(dispose_erases_all_without_flush flushState).2.2.1 ⟨"t", "e"⟩ (by simp [flushState]),
    (dispose_erases_all_without_flush flushState).2.2.2 "/d/x" (by decide)⟩

/-- Claim C10 counterexample: at a state with an unlocked engine, one
active record, plaintext edited to `[2]`, and a persisted envelope of the
stale `[1]`, `dispose` erases the plaintext and drops the record but
leaves the encrypted store untouched — no flush-then-erase: the envelope
still decrypts to `[1]`, and the last edit `[2]` is lost. -/
theorem dispose_no_flush_counterexample :
    (TempFileManager.dispose flushState).encStore = [("e", demoEnv)] ∧
    NotepadEncryption.decrypt flushState.engine demoEnv = .ok [1] ∧
    fsFind flushState.plain "t" = some [2] ∧
    ([2] : Bytes) ≠ [1] ∧
    (TempFileManager.dispose flushState).tempFiles = [] ∧
    fsFind (TempFileManager.dispose flushState).plain "t" = none :=
  ⟨rfl, rfl, rfl, by decide, rfl, rfl⟩

/-- The per-record re-encryption pipeline of `handleFileChange` /
`reEncryptFile` (`src/tempFileManager.ts` lines 343-386), as a small-step
machine over one record so that the interleavings of §5 of the spec
(operations suspend at file-I/O boundaries and change notifications can
interleave there) are expressible: `content` is the plaintext file's
current content, `persisted` the plaintext the envelope on disk decrypts
to, and `inFlight` the content snapshot a started, not yet finished
re-encryption is writing. -/
structure ReencState where
  content : Bytes
  persisted : Option Bytes
  inFlight : Option Bytes
deriving DecidableEq

/-- A host edit: the plaintext file now holds `b`. -/
def editEv (s : ReencState) (b : Bytes) : ReencState :=
  { s with content := b }

/-- A change notification delivered to `handleFileChange`
(`src/tempFileManager.ts` lines 353-371): when `saveInProgress` already
holds this path the handler returns at once — the notification has no
effect and nothing more is scheduled; otherwise the guard is set and the
re-encryption starts by reading the file's current content. -/
def notifyEv (s : ReencState) : ReencState :=
  match s.inFlight with
  | some _ => s
  | none => { s with inFlight := some s.content }

/-- The in-flight re-encryption finishes: its snapshot becomes the
persisted envelope's content and the guard is released
(`reEncryptFile`'s write, then the `finally` clearing `saveInProgress`). -/
def finishEv (s : ReencState) : ReencState :=
  match s.inFlight with
  | some c => { content := s.content, persisted := some c, inFlight := none }
  | none => s

/-- Claim C4 counterexample: start from content `[1]`, let a re-encryption
start (snapshot `[1]`), edit to `[2]` mid-flight, deliver the resulting
change notification mid-flight — it is a no-op (dropped by the
`saveInProgress` guard) — and let the in-flight re-encryption finish.  The
final state is idle with the envelope persisting `[1]` while the latest
plaintext is `[2]`: no further re-encryption was scheduled, so the
persisted envelope does not eventually reflect the latest plaintext. -/
theorem notification_mid_flight_dropped_counterexample :
    (notifyEv (editEv (notifyEv ⟨[1], none, none⟩) [2])
      = editEv (notifyEv ⟨[1], none, none⟩) [2]) ∧
    finishEv (notifyEv (editEv (notifyEv ⟨[1], none, none⟩) [2]))
      = ⟨[2], some [1], none⟩ ∧
    some [1] ≠ some ([2] : Bytes) := by
  refine ⟨rfl, rfl, by decide⟩

/-- Claim C4 amended: at most one re-encryption per record is in flight at
a time — the machine's `inFlight` holds at most one snapshot, and a
notification arriving while one is in flight is dropped entirely: the
handler returns without effect and no further re-encryption is scheduled
once the in-flight one finishes.  Correspondingly, in the manager model,
`handleFileChange` for a path in `saveInProgress` leaves the whole state
unchanged. -/
theorem notification_mid_flight_suppressed_amended :
    (∀ (s : ReencState) (c : Bytes), s.inFlight = some c → notifyEv s = s) ∧
    (∀ (s : ReencState) (c : Bytes), s.inFlight = some c →
      (finishEv (notifyEv s)).inFlight = none ∧
      (finishEv (notifyEv s)).persisted = some c) ∧
    (∀ (s : TFMState) (tp : String), tp ∈ s.saveInProgress →
      TempFileManager.handleFileChange s tp = s) := by
  refine ⟨?_, ?_, ?_⟩
  · intro s c hc
    unfold notifyEv
    rw [hc]
  · intro s c hc
    have h1 : notifyEv s = s := by
      unfold notifyEv
      rw [hc]
    rw [h1]
    unfold finishEv
    rw [hc]
    exact ⟨rfl, rfl⟩
  · intro s tp hmem
    unfold TempFileManager.handleFileChange
    simp [hmem]

theorem notification_mid_flight_suppressed_amended_witness :
    notifyEv ⟨[2], none, some [1]⟩ = ⟨[2], none, some [1]⟩ ∧
    TempFileManager.handleFileChange { flushState with saveInProgress := ["t"] } "t"
      = { flushState with saveInProgress := ["t"] } :=
  ⟨notification_mid_flight_suppressed_amended.1 ⟨[2], none, some [1]⟩ [1] rfl,
    notification_mid_flight_suppressed_amended.2.2
      { flushState with saveInProgress := ["t"] } "t" (by decide)⟩
